import Mathlib

/-!
Shallow embedding of the resilience core of the `go-logging` repository
(`pkg/logging/handlers.go`, `pkg/logging/health.go`, and the pooled logger
in `logger.go`), together with theorems settling the specification claims
about the circuit breaker, sampling filter, async dispatcher, rotating
file sink, health monitor and event pool.

Machine integers of the source (`int`, `int64`) are modelled as `Int` or
`Nat`; the values reached by the modelled operations stay far from the
64-bit bounds, so overflow is not observable.  Wall-clock instants
(`time.Time`) are modelled as `Nat` timestamps passed explicitly; Go's
`time.Since(t)` at instant `now` becomes `now - t`.  Pointers to pooled
`Entry` records are modelled as numeric identities.  A Go `error` result
is modelled as `Bool` (`true` = nil error / success) or as an explicit
error option where the distinct error matters.
-/

namespace GoLogging

/-! ## Circuit breaker (`health.go`, `CircuitBreaker`) -/

/-- `CircuitState` from `health.go`: closed / open / half-open.
(The Go constant `CircuitStateOpen` is rendered `opened` because `open`
is a Lean keyword.) -/
inductive CircuitState
  | closed
  | opened
  | halfOpen
deriving DecidableEq, Repr

/-- The mutable fields of Go's `CircuitBreaker` struct: configuration
`maxFailures : int64` and `timeout : Duration`, and state `failures`,
`lastFailure` (timestamp) and `state`.  The mutex is not modelled: each
modelled operation is one critical section. -/
structure CircuitBreaker where
  maxFailures : Int
  timeout : Nat
  failures : Int
  lastFailure : Nat
  state : CircuitState
deriving DecidableEq, Repr

/-- `NewCircuitBreaker(maxFailures, timeout)`: zero-valued counters,
state `closed`.  (`lastFailure` is Go's zero `time.Time`, modelled 0.) -/
def NewCircuitBreaker (maxFailures : Int) (timeout : Nat) : CircuitBreaker :=
  { maxFailures := maxFailures
    timeout := timeout
    failures := 0
    lastFailure := 0
    state := .closed }

/-- `setState`: overwrite the state (the state-change callback has no
effect on breaker state and is not modelled). -/
def CircuitBreaker.setState (cb : CircuitBreaker) (s : CircuitState) : CircuitBreaker :=
  { cb with state := s }

/-- `recordFailure` at instant `now`: increment `failures`, stamp
`lastFailure`; half-open goes (back) to open, otherwise open the breaker
exactly when the incremented count reaches `maxFailures`. -/
def CircuitBreaker.recordFailure (cb : CircuitBreaker) (now : Nat) : CircuitBreaker :=
  let cb' := { cb with failures := cb.failures + 1, lastFailure := now }
  if cb'.state = .halfOpen then cb'.setState .opened
  else if cb'.maxFailures ≤ cb'.failures then cb'.setState .opened
  else cb'

/-- `recordSuccess`: reset the failure counter; a half-open breaker
closes. -/
def CircuitBreaker.recordSuccess (cb : CircuitBreaker) : CircuitBreaker :=
  let cb' := { cb with failures := 0 }
  if cb'.state = .halfOpen then cb'.setState .closed
  else cb'

/-- Outcome of `CircuitBreaker.Execute`: the wrapped operation's success,
its failure, or the fabricated "circuit breaker is open" error. -/
inductive ExecOutcome
  | ok
  | opFailed
  | breakerOpen
deriving DecidableEq, Repr

/-- `Execute(fn)` at instant `now`, where `opSucceeds` is the outcome
`fn` would produce.  Returns (was `fn` invoked?, outcome, new breaker).
Mirrors the source: an open breaker whose cool-down has elapsed
(`time.Since(lastFailure) > timeout`) is set half-open and the call
proceeds; an open breaker within the cool-down returns the
"circuit breaker is open" error without invoking `fn`. -/
def CircuitBreaker.Execute (cb : CircuitBreaker) (now : Nat) (opSucceeds : Bool) :
    Bool × ExecOutcome × CircuitBreaker :=
  if cb.state = .opened ∧ ¬ (cb.timeout < now - cb.lastFailure) then
    (false, .breakerOpen, cb)
  else
    let cb₁ := if cb.state = .opened then cb.setState .halfOpen else cb
    if opSucceeds then (true, .ok, cb₁.recordSuccess)
    else (true, .opFailed, cb₁.recordFailure now)

/-- `GetState`. -/
def CircuitBreaker.GetState (cb : CircuitBreaker) : CircuitState :=
  cb.state

/-! ## Sampling handler (`handlers.go`, `SamplingHandler`) -/

/-- Go's `SamplingHandler`: configured `rate : float64` and the
per-instance call counter.  The rate is modelled as a rational; every
comparison the source performs on it (`rate < 1.0`,
`float64(counter%100) >= rate*100` for the rates in the claims) is exact
in `float64`, so the rational model decides each branch identically. -/
structure SamplingHandler where
  rate : ℚ
  counter : ℕ
deriving DecidableEq, Repr

/-- `NewSamplingHandler(handler, rate)`: counter starts at 0. -/
def NewSamplingHandler (rate : ℚ) : SamplingHandler :=
  { rate := rate, counter := 0 }

/-- `Handle(entry)`, where `innerOutcome` is what the wrapped handler
would return for this entry (`true` = nil error).  Returns
(was the entry forwarded?, returned outcome, new state).  Mirrors the
source: increment the counter; if `rate < 1.0` and
`counter % 100 >= rate*100`, skip the entry and return nil (success);
otherwise forward and return the wrapped handler's outcome. -/
def SamplingHandler.Handle (h : SamplingHandler) (innerOutcome : Bool) :
    Bool × Bool × SamplingHandler :=
  let h' : SamplingHandler := { h with counter := h.counter + 1 }
  if h'.rate < 1 ∧ (h'.rate * 100 : ℚ) ≤ ((h'.counter % 100 : ℕ) : ℚ) then
    (false, true, h')
  else
    (true, innerOutcome, h')

/-- Run `n` consecutive `Handle` calls on a sampling handler (the wrapped
handler always succeeding), collecting whether each call was forwarded. -/
def SamplingHandler.run (h : SamplingHandler) : ℕ → List Bool
  | 0 => []
  | n + 1 =>
    let r := h.Handle true
    r.1 :: r.2.2.run n

/-- Pure-`ℕ` mirror of `SamplingHandler.run` for rate `1/5` (so with the
forwarding threshold `r × 100 = 20`), used to evaluate the concrete
100-call pattern inside the kernel; proved equal to the rational-rate
run below. -/
def natSampleRunFifth (c : ℕ) : ℕ → List Bool
  | 0 => []
  | n + 1 => decide ((c + 1) % 100 < 20) :: natSampleRunFifth (c + 1) n

/-! ## Async handler (`handlers.go`, `AsyncHandler`) -/

/-- Go's `AsyncHandler`: the buffered channel `buffer` (capacity `cap`,
contents a FIFO list of entry identities), the `stop` channel (`stopClosed`
is whether `Stop` has closed it), the live worker goroutines and the
entries handed to the wrapped handler so far (by a worker, or by the
caller on the synchronous fallback path). -/
structure AsyncHandler where
  cap : ℕ
  buffer : List ℕ
  stopClosed : Bool
  workers : ℕ
  processed : List ℕ
deriving DecidableEq, Repr

/-- `NewAsyncHandler(handler, bufferSize, workers)`: always returns a
handler — the Go constructor's signature has no error result and the body
performs no validation of `bufferSize` or `workers`; `start()` launches
exactly `workers` goroutines. -/
def NewAsyncHandler (bufferSize workers : ℕ) : AsyncHandler :=
  { cap := bufferSize
    buffer := []
    stopClosed := false
    workers := workers
    processed := [] }

/-- `Handle(entry)`, with `innerOutcome` the wrapped handler's result for
this entry.  Returns (returned outcome, was the call synchronous?, new
state).  The `select` with a `default` case is a non-blocking channel
send: it succeeds exactly when the buffer has spare capacity (the queue
is never closed, so the send never panics, even after `Stop`); on a full
buffer the entry is handed to the wrapped handler on the caller's thread
and that handler's outcome is returned. -/
def AsyncHandler.Handle (h : AsyncHandler) (e : ℕ) (innerOutcome : Bool) :
    Bool × Bool × AsyncHandler :=
  if h.buffer.length < h.cap then
    (true, false, { h with buffer := h.buffer ++ [e] })
  else
    (innerOutcome, true, { h with processed := h.processed ++ [e] })

/-- One scheduling step of the worker goroutines.  Each worker loops on
`select { case entry := <-h.buffer: …; case <-h.stop: return }`; when
both channels are ready Go picks either case, so a worker may take the
`stop` case and exit while entries are still buffered: -/
inductive WorkerStep : AsyncHandler → AsyncHandler → Prop
  | recv (h : AsyncHandler) (e : ℕ) (rest : List ℕ) :
      0 < h.workers → h.buffer = e :: rest →
      WorkerStep h { h with buffer := rest, processed := h.processed ++ [e] }
  | stopRecv (h : AsyncHandler) :
      0 < h.workers → h.stopClosed = true →
      WorkerStep h { h with workers := h.workers - 1 }

/-- `Stop()` closes the `stop` channel; `wg.Wait()` then blocks until
`workers = 0`.  Nothing drains or closes `buffer`. -/
def AsyncHandler.Stop (h : AsyncHandler) : AsyncHandler :=
  { h with stopClosed := true }

/-! ## Entry pool and `logger.log` (`logger.go`) -/

/-- The world visible to `logger.log`: the `sync.Pool` of `Entry`
records (identities of pooled entries plus a supply of fresh ones) and
the configured async handler.  `Entry.Reset` clears the record's fields;
since only identity matters here, resetting is implicit. -/
structure LogWorld where
  pool : List ℕ
  nextId : ℕ
  handler : AsyncHandler
deriving DecidableEq, Repr

/-- `getEntryFromPool` / `entryPool.Get`: reuse a pooled entry if one is
available, otherwise allocate a fresh one. -/
def getEntryFromPool (w : LogWorld) : ℕ × LogWorld :=
  match w.pool with
  | e :: rest => (e, { w with pool := rest })
  | [] => (w.nextId, { w with nextId := w.nextId + 1 })

/-- `putEntryToPool`: `entry.Reset()` then `entryPool.Put(entry)`. -/
def putEntryToPool (w : LogWorld) (e : ℕ) : LogWorld :=
  { w with pool := e :: w.pool }

/-- `logger.log` with the async handler configured: take an entry from
the pool, fill it, call `handler.Handle(entry)`, and immediately reset
the entry and return it to the pool — whatever `Handle` did with it. -/
def logger.log (w : LogWorld) : LogWorld :=
  let (e, w₁) := getEntryFromPool w
  let (_, _, h') := w₁.handler.Handle e true
  putEntryToPool { w₁ with handler := h' } e

/-! ## Rotating file handler (`handlers.go`, `RotatingFileHandler`) -/

/-- The directory fragment the rotating handler touches: index `0` is
the base path `filename`, index `i > 0` is `filename.i`; the value is
the file's size in bytes (`none` = no such file). -/
def FS : Type := ℕ → Option ℕ

/-- `os.Rename(src, dst)` guarded by `os.Stat(src)`: move the file at
`src` onto `dst` (overwriting `dst`) when `src` exists; do nothing
otherwise.  (A failed rename is ignored by the source.) -/
def renameIfExists (fs : FS) (src dst : ℕ) : FS :=
  match fs src with
  | none => fs
  | some sz => fun j => if j = dst then some sz else if j = src then none else fs j

/-- The rotation loop `for i := maxFiles - 1; i > 0; i--` renaming
`filename.i` to `filename.(i+1)`, highest index first:
`rotateShift fs i` performs the renames for indices `i, i-1, …, 1`. -/
def rotateShift (fs : FS) : ℕ → FS
  | 0 => fs
  | i + 1 => rotateShift (renameIfExists fs (i + 1) (i + 2)) i

/-- The mutable state of `RotatingFileHandler`: configuration `maxSize`
(bytes) and `maxFiles`, plus the running size counter of the open file.
The file handle itself lives in `FS` slot `0`. -/
structure RotState where
  maxSize : ℕ
  maxFiles : ℕ
  currentSize : ℕ
deriving DecidableEq, Repr

/-- An I/O failure surfaced by the handler (open or write). -/
inductive RotErr
  | ioError
deriving DecidableEq, Repr

/-- `openFile`: open `filename` with `O_CREATE|O_APPEND` (creating an
empty file when absent), stat it, and set `currentSize` to its size.
`openOk` is whether the open/stat succeeds; on failure the state is
returned unchanged (the source returns before assigning `currentFile`
or `currentSize`). -/
def RotState.openFile (st : RotState) (fs : FS) (openOk : Bool) :
    Option RotErr × RotState × FS :=
  if openOk then
    let sz := (fs 0).getD 0
    (none, { st with currentSize := sz }, fun j => if j = 0 then some sz else fs j)
  else
    (some .ioError, st, fs)

/-- `rotate`: close the current file, shift `filename.i` → `filename.(i+1)`
for `i` from `maxFiles - 1` down to `1`, rename `filename` → `filename.1`,
then reopen a fresh `filename`.  All renames complete before the reopen
is attempted. -/
def RotState.rotate (st : RotState) (fs : FS) (openOk : Bool) :
    Option RotErr × RotState × FS :=
  let fs₁ := rotateShift fs (st.maxFiles - 1)
  let fs₂ := renameIfExists fs₁ 0 1
  st.openFile fs₂ openOk

/-- The append at the end of `Handle`: write the formatted entry plus
the newline separator; only a successful write bumps `currentSize`. -/
def RotState.append (st : RotState) (fs : FS) (fmtLen : ℕ) (writeOk : Bool) :
    Option RotErr × RotState × FS :=
  if writeOk then
    (none, { st with currentSize := st.currentSize + (fmtLen + 1) },
      fun j => if j = 0 then some ((fs 0).getD 0 + (fmtLen + 1)) else fs j)
  else
    (some .ioError, st, fs)

/-- `Handle(entry)` after a successful format of length `fmtLen`:
rotate exactly when `currentSize + fmtLen + 1 > maxSize` (the `+ 1` is
the newline separator), propagating a rotation failure; then append.
`openOk` and `writeOk` are the outcomes of the reopen and the write. -/
def RotState.Handle (st : RotState) (fs : FS) (fmtLen : ℕ) (openOk writeOk : Bool) :
    Option RotErr × RotState × FS :=
  if st.maxSize < st.currentSize + (fmtLen + 1) then
    match st.rotate fs openOk with
    | (some e, st', fs') => (some e, st', fs')
    | (none, st', fs') => st'.append fs' fmtLen writeOk
  else
    st.append fs fmtLen writeOk

/-! ## Health monitor (`health.go`, `HealthMonitor`) -/

/-- `HealthStatus`. -/
inductive HealthStatus
  | healthy
  | degraded
  | unhealthy
deriving DecidableEq, Repr

/-- `HealthCheckResult` (the fields the claims observe; duration and
timestamp are bookkeeping filled from the clock). -/
structure HealthCheckResult where
  status : HealthStatus
  message : String
deriving DecidableEq, Repr

/-- A health check: the result the probe produces at a given tick. -/
def HealthCheck : Type := ℕ → HealthCheckResult

/-- Association-list counterpart of a Go `map`: lookup by key. -/
def lookupA {α : Type} (l : List (String × α)) (k : String) : Option α :=
  match l with
  | [] => none
  | (k', v) :: rest => if k' = k then some v else lookupA rest k

/-- Association-list counterpart of Go `m[k] = v`: replace or add. -/
def insertA {α : Type} (l : List (String × α)) (k : String) (v : α) :
    List (String × α) :=
  match l with
  | [] => [(k, v)]
  | (k', v') :: rest => if k' = k then (k, v) :: rest else (k', v') :: insertA rest k v

/-- Association-list counterpart of Go `delete(m, k)`. -/
def eraseA {α : Type} (l : List (String × α)) (k : String) : List (String × α) :=
  match l with
  | [] => []
  | (k', v') :: rest => if k' = k then eraseA rest k else (k', v') :: eraseA rest k

/-- `HealthMonitor`: the registered checks and the latest recorded
result per name.  The two maps are distinct fields, exactly as in the
source. -/
structure HealthMonitor where
  checks : List (String × HealthCheck)
  results : List (String × HealthCheckResult)

/-- `NewHealthMonitor`: empty check and result maps. -/
def NewHealthMonitor : HealthMonitor :=
  { checks := [], results := [] }

/-- `AddCheck(name, check)`. -/
def HealthMonitor.AddCheck (hm : HealthMonitor) (name : String) (check : HealthCheck) :
    HealthMonitor :=
  { hm with checks := insertA hm.checks name check }

/-- `RemoveCheck(name)`: `delete(hm.checks, name)` — `results` is not
touched. -/
def HealthMonitor.RemoveCheck (hm : HealthMonitor) (name : String) : HealthMonitor :=
  { hm with checks := eraseA hm.checks name }

/-- `GetHealth`: a copy of the `results` map. -/
def HealthMonitor.GetHealth (hm : HealthMonitor) : List (String × HealthCheckResult) :=
  hm.results

/-- `GetOverallHealth`: unhealthy when `results` is empty; otherwise
unhealthy if any recorded result is unhealthy, else degraded if any is
degraded, else healthy. -/
def HealthMonitor.GetOverallHealth (hm : HealthMonitor) : HealthStatus :=
  if hm.results.isEmpty then .unhealthy
  else
    let hasUnhealthy := hm.results.any fun p => p.2.status = .unhealthy
    let hasDegraded := hm.results.any fun p => p.2.status = .degraded
    if hasUnhealthy then .unhealthy
    else if hasDegraded then .degraded
    else .healthy

/-- `runChecks` at tick `t` (one monitoring tick): snapshot the check
map and record each probe's result keyed by its name.  (`runCheck` also
stamps duration/timestamp and logs; neither affects the maps.) -/
def HealthMonitor.runChecks (hm : HealthMonitor) (t : ℕ) : HealthMonitor :=
  { hm with results := hm.checks.foldl (fun r p => insertA r p.1 (p.2 t)) hm.results }

/-- A sequence of monitoring ticks. -/
def HealthMonitor.runTicks (hm : HealthMonitor) : List ℕ → HealthMonitor
  | [] => hm
  | t :: ts => (hm.runChecks t).runTicks ts

/-! ## Theorems -/

/-- Claim C4: the circuit breaker follows its state machine: a fresh
breaker is closed with failure count 0; from closed, a failing call
opens the breaker exactly when the consecutive-failure count reaches the
threshold and fewer consecutive failures leave it closed; while open and
within the cool-down since the last failure, `Execute` returns the
"breaker open" outcome without invoking the operation and leaves the
breaker unchanged; once the cool-down has elapsed the next call runs as
a half-open trial — a success closes the breaker and resets the failure
counter to 0, a failure re-opens it. -/
theorem circuitBreaker_state_machine :
    (∀ t d, (NewCircuitBreaker t d).state = .closed ∧ (NewCircuitBreaker t d).failures = 0)
    ∧ (∀ (cb : CircuitBreaker) (now : ℕ), cb.state = .closed →
        ((cb.Execute now false).2.2.state = .opened ↔ cb.maxFailures ≤ cb.failures + 1)
        ∧ (cb.failures + 1 < cb.maxFailures → (cb.Execute now false).2.2.state = .closed))
    ∧ (∀ (cb : CircuitBreaker) (now : ℕ) (b : Bool), cb.state = .opened →
        now - cb.lastFailure ≤ cb.timeout →
        cb.Execute now b = (false, .breakerOpen, cb))
    ∧ (∀ (cb : CircuitBreaker) (now : ℕ), cb.state = .opened →
        cb.timeout < now - cb.lastFailure →
        (∀ b, (cb.Execute now b).1 = true)
        ∧ ((cb.Execute now true).2.2.state = .closed
            ∧ (cb.Execute now true).2.2.failures = 0)
        ∧ (cb.Execute now false).2.2.state = .opened) := by
  refine ⟨fun t d => ⟨rfl, rfl⟩, ?_, ?_, ?_⟩
  · intro cb now hclosed
    constructor
    · by_cases h : cb.maxFailures ≤ cb.failures + 1 <;>
        simp [CircuitBreaker.Execute, CircuitBreaker.recordFailure,
          CircuitBreaker.setState, hclosed, h]
    · intro hlt
      have h : ¬ cb.maxFailures ≤ cb.failures + 1 := by omega
      simp [CircuitBreaker.Execute, CircuitBreaker.recordFailure,
        CircuitBreaker.setState, hclosed, h]
  · intro cb now b hopen hcd
    simp only [CircuitBreaker.Execute, hopen]
    have h : ¬ cb.timeout < now - cb.lastFailure := by omega
    simp [h]
  · intro cb now hopen hcd
    refine ⟨?_, ⟨?_, ?_⟩, ?_⟩ <;>
      simp [CircuitBreaker.Execute, hopen, hcd, CircuitBreaker.recordSuccess,
        CircuitBreaker.recordFailure, CircuitBreaker.setState]

/-- Witness for `circuitBreaker_state_machine` at concrete breakers:
threshold 2, cool-down 5; an open breaker at 3 time units past its last
failure rejects without invoking the operation, and a closed breaker one
failure short of the threshold stays closed. -/
theorem circuitBreaker_state_machine_witness :
    (({ maxFailures := 2, timeout := 5, failures := 1, lastFailure := 0,
        state := .opened } : CircuitBreaker).Execute 3 true
      = (false, .breakerOpen,
         { maxFailures := 2, timeout := 5, failures := 1, lastFailure := 0,
           state := .opened }))
    ∧ (({ maxFailures := 2, timeout := 5, failures := 0, lastFailure := 0,
          state := .closed } : CircuitBreaker).Execute 9 false).2.2.state = .closed :=
  ⟨circuitBreaker_state_machine.2.2.1 _ 3 true rfl (by decide),
   (circuitBreaker_state_machine.2.1 _ 9 rfl).2 (by decide)⟩

/-- For rate `1/5` the sampling decision reduces to the threshold-20
comparison on the counter modulo 100. -/
theorem handle_one_fifth (c : ℕ) (io : Bool) :
    (SamplingHandler.Handle ⟨1/5, c⟩ io)
      = (if 20 ≤ (c + 1) % 100 then (false, true, ⟨1/5, c + 1⟩)
         else (true, io, ⟨1/5, c + 1⟩)) := by
  have hcond : ((1 : ℚ)/5 < 1 ∧ ((1 : ℚ)/5) * 100 ≤ (((c + 1) % 100 : ℕ) : ℚ))
      ↔ 20 ≤ (c + 1) % 100 := by
    constructor
    · rintro ⟨-, hle⟩
      rw [show ((1 : ℚ)/5) * 100 = 20 by norm_num] at hle
      exact_mod_cast hle
    · intro hge
      refine ⟨by norm_num, ?_⟩
      rw [show ((1 : ℚ)/5) * 100 = 20 by norm_num]
      exact_mod_cast hge
  simp only [SamplingHandler.Handle]
  exact if_congr hcond rfl rfl

/-- The rate-`1/5` run coincides with its pure-`ℕ` mirror. -/
theorem sampling_run_one_fifth (n : ℕ) : ∀ c : ℕ,
    SamplingHandler.run ⟨1/5, c⟩ n = natSampleRunFifth c n := by
  induction n with
  | zero => intro c; rfl
  | succ n ih =>
    intro c
    show (SamplingHandler.Handle ⟨1/5, c⟩ true).1
        :: (SamplingHandler.Handle ⟨1/5, c⟩ true).2.2.run n = _
    rw [handle_one_fifth]
    by_cases h : 20 ≤ (c + 1) % 100
    · rw [if_pos h]
      show (false : Bool) :: SamplingHandler.run ⟨1/5, c + 1⟩ n = _
      rw [ih (c + 1)]
      have hd : decide ((c + 1) % 100 < 20) = false := decide_eq_false (not_lt.mpr h)
      rw [show natSampleRunFifth c (n + 1)
            = decide ((c + 1) % 100 < 20) :: natSampleRunFifth (c + 1) n from rfl, hd]
    · rw [if_neg h]
      show (true : Bool) :: SamplingHandler.run ⟨1/5, c + 1⟩ n = _
      rw [ih (c + 1)]
      have hd : decide ((c + 1) % 100 < 20) = true := decide_eq_true (not_le.mp h)
      rw [show natSampleRunFifth c (n + 1)
            = decide ((c + 1) % 100 < 20) :: natSampleRunFifth (c + 1) n from rfl, hd]

/-- Claim C5: the sampling handler increments its per-instance counter on
every call and forwards exactly when `(c mod 100) < r × 100` (`c` the
incremented counter), reporting success on suppressed calls; the decision
is a deterministic function of the rate and the counter alone; a fresh
instance with rate 0.2 forwards exactly 20 of its first 100 calls; rate 1
forwards every call and rate 0 forwards none. -/
theorem samplingHandler_counter_sampling :
    (∀ (h : SamplingHandler) (io : Bool),
        (h.Handle io).1 = true ↔ (((h.counter + 1) % 100 : ℕ) : ℚ) < h.rate * 100)
    ∧ (∀ (h : SamplingHandler) (io : Bool),
        (h.Handle io).1 = false → (h.Handle io).2.1 = true)
    ∧ (∀ (h : SamplingHandler) (io : Bool), (h.Handle io).2.2.counter = h.counter + 1)
    ∧ (∀ (h₁ h₂ : SamplingHandler) (io₁ io₂ : Bool), h₁.rate = h₂.rate →
        h₁.counter = h₂.counter → (h₁.Handle io₁).1 = (h₂.Handle io₂).1)
    ∧ ((NewSamplingHandler (1/5)).run 100).count true = 20
    ∧ (∀ (h : SamplingHandler) (io : Bool), h.rate = 1 → (h.Handle io).1 = true)
    ∧ (∀ (h : SamplingHandler) (io : Bool), h.rate = 0 → (h.Handle io).1 = false) := by
  have hfwd : ∀ (h : SamplingHandler) (io : Bool),
      (h.Handle io).1 = true ↔ (((h.counter + 1) % 100 : ℕ) : ℚ) < h.rate * 100 := by
    intro h io
    by_cases hr : h.rate < 1
    · by_cases hc : (h.rate * 100 : ℚ) ≤ (((h.counter + 1) % 100 : ℕ) : ℚ)
      · simp [SamplingHandler.Handle, hr, hc]
      · simp [SamplingHandler.Handle, hr, hc]
        exact lt_of_not_le hc
    · have hlt : (((h.counter + 1) % 100 : ℕ) : ℚ) < 100 := by
        have := Nat.mod_lt (h.counter + 1) (y := 100) (by norm_num)
        exact_mod_cast this
      have hge : (100 : ℚ) ≤ h.rate * 100 := by nlinarith [not_lt.mp hr]
      simp [SamplingHandler.Handle, hr]
      exact lt_of_lt_of_le hlt hge
  refine ⟨hfwd, ?_, ?_, ?_, ?_, ?_, ?_⟩
  · intro h io
    by_cases hr : h.rate < 1 <;>
      by_cases hc : (h.rate * 100 : ℚ) ≤ (((h.counter + 1) % 100 : ℕ) : ℚ) <;>
        simp [SamplingHandler.Handle, hr, hc]
  · intro h io
    by_cases hr : h.rate < 1 <;>
      by_cases hc : (h.rate * 100 : ℚ) ≤ (((h.counter + 1) % 100 : ℕ) : ℚ) <;>
        simp [SamplingHandler.Handle, hr, hc]
  · intro h₁ h₂ io₁ io₂ hr hc
    by_cases hb : (h₁.Handle io₁).1 = true
    · have := (hfwd h₁ io₁).mp hb
      rw [hc, hr] at this
      rw [hb, ((hfwd h₂ io₂).mpr this)]
    · have hb' : (h₁.Handle io₁).1 = false := by
        cases hx : (h₁.Handle io₁).1
        · rfl
        · exact absurd hx hb
      have h2f : (h₂.Handle io₂).1 = false := by
        cases hy : (h₂.Handle io₂).1
        · rfl
        · have := (hfwd h₂ io₂).mp hy
          rw [← hc, ← hr] at this
          exact absurd ((hfwd h₁ io₁).mpr this) hb
      rw [hb', h2f]
  · show (SamplingHandler.run ⟨1/5, 0⟩ 100).count true = 20
    rw [sampling_run_one_fifth]
    decide
  · intro h io hr
    rw [hfwd]
    have hlt : (((h.counter + 1) % 100 : ℕ) : ℚ) < 100 := by
      have := Nat.mod_lt (h.counter + 1) (y := 100) (by norm_num)
      exact_mod_cast this
    rw [hr]
    simpa using hlt
  · intro h io hr
    have : ¬ (((h.counter + 1) % 100 : ℕ) : ℚ) < h.rate * 100 := by
      rw [hr]
      simp
    cases hx : (h.Handle io).1
    · rfl
    · exact absurd ((hfwd h io).mp hx) this

/-- Witness for `samplingHandler_counter_sampling`: a fresh rate-1
instance forwards its first call; a fresh rate-0 instance suppresses its
first call and still reports success. -/
theorem samplingHandler_counter_sampling_witness :
    ((NewSamplingHandler 1).Handle false).1 = true
    ∧ ((NewSamplingHandler 0).Handle true).1 = false
    ∧ (((NewSamplingHandler 0).Handle true).1 = false →
        ((NewSamplingHandler 0).Handle true).2.1 = true) :=
  ⟨samplingHandler_counter_sampling.2.2.2.2.2.1 (NewSamplingHandler 1) false rfl,
   samplingHandler_counter_sampling.2.2.2.2.2.2 (NewSamplingHandler 0) true rfl,
   samplingHandler_counter_sampling.2.1 (NewSamplingHandler 0) true⟩

/-- Claim C3: when the async handler's queue is full, `Handle` invokes
the wrapped handler synchronously on the caller's thread and returns
exactly that handler's outcome; with spare capacity it enqueues the
entry and returns success immediately. -/
theorem asyncHandler_backpressure (h : AsyncHandler) (e : ℕ) (io : Bool) :
    (h.cap ≤ h.buffer.length →
      h.Handle e io = (io, true, { h with processed := h.processed ++ [e] }))
    ∧ (h.buffer.length < h.cap →
      h.Handle e io = (true, false, { h with buffer := h.buffer ++ [e] })) := by
  constructor
  · intro hfull
    simp [AsyncHandler.Handle, not_lt.mpr hfull]
  · intro hspare
    simp [AsyncHandler.Handle, hspare]

/-- Witness for `asyncHandler_backpressure`: a capacity-1 handler whose
queue holds entry 5 delivers entry 9 synchronously and surfaces the
wrapped handler's failure; with the queue empty it enqueues and reports
success. -/
theorem asyncHandler_backpressure_witness :
    ((⟨1, [5], false, 1, []⟩ : AsyncHandler).Handle 9 false
      = (false, true, ⟨1, [5], false, 1, [9]⟩))
    ∧ ((⟨1, [], false, 1, []⟩ : AsyncHandler).Handle 9 false
      = (true, false, ⟨1, [9], false, 1, []⟩)) :=
  ⟨(asyncHandler_backpressure ⟨1, [5], false, 1, []⟩ 9 false).1 (by decide),
   (asyncHandler_backpressure ⟨1, [], false, 1, []⟩ 9 false).2 (by decide)⟩

/-- Claim C1 fails on the code: `Stop` closes the `stop` channel without
draining the queue, and each worker's `select` may take the `stop` case
while entries are still buffered.  Below, from a stopped handler holding
queued entry 7, a legal schedule has the single worker exit immediately:
shutdown completes (`workers = 0`, so `wg.Wait` returns) with entry 7
still queued and never handed to the wrapped handler — the event is
lost.  Moreover a `Handle` call after shutdown is neither rejected nor
synchronous: the queue is still open and accepting, so the call reports
success and parks entry 9 on a queue no worker will ever read. -/
theorem asyncHandler_stop_loses_queued_event :
    Relation.ReflTransGen WorkerStep
        ((⟨4, [7], false, 1, []⟩ : AsyncHandler).Stop) ⟨4, [7], true, 0, []⟩
    ∧ (⟨4, [7], true, 0, []⟩ : AsyncHandler).workers = 0
    ∧ (⟨4, [7], true, 0, []⟩ : AsyncHandler).buffer = [7]
    ∧ (⟨4, [7], true, 0, []⟩ : AsyncHandler).processed = []
    ∧ (⟨4, [7], true, 0, []⟩ : AsyncHandler).Handle 9 false
        = (true, false, ⟨4, [7, 9], true, 0, []⟩) := by
  refine ⟨?_, rfl, rfl, rfl, ?_⟩
  · exact Relation.ReflTransGen.single
      (WorkerStep.stopRecv ⟨4, [7], true, 1, []⟩ (by decide) rfl)
  · simp [AsyncHandler.Handle]

/-- Claim C2 fails on the code: `logger.log` calls `putEntryToPool`
(reset + `entryPool.Put`) immediately after `handler.Handle` returns;
with the async handler in the path, `Handle` returns as soon as the
entry is enqueued, so the entry sits in the pool while still queued.
Below, a log call through an idle async handler leaves entry 7 both in
the pool and in the queue, unprocessed — and the next `getEntryFromPool`
hands out entry 7 for reuse while it is still queued. -/
theorem log_returns_entry_to_pool_while_queued :
    (logger.log ⟨[], 7, ⟨4, [], false, 1, []⟩⟩).pool = [7]
    ∧ (logger.log ⟨[], 7, ⟨4, [], false, 1, []⟩⟩).handler.buffer = [7]
    ∧ (logger.log ⟨[], 7, ⟨4, [], false, 1, []⟩⟩).handler.processed = []
    ∧ (getEntryFromPool (logger.log ⟨[], 7, ⟨4, [], false, 1, []⟩⟩)).1 = 7 := by
  refine ⟨?_, ?_, ?_, ?_⟩ <;> rfl

/-- Claim C9 fails on the code: `NewAsyncHandler`'s signature has no
error result and its body performs no validation, so a zero worker
count is accepted at construction; first use does not fail either — the
entry is accepted onto the queue with a success result — but with zero
workers no schedule ever delivers it.  `NewCircuitBreaker` likewise
accepts any configuration, e.g. a zero failure threshold. -/
theorem constructors_accept_misconfiguration :
    (NewAsyncHandler 10 0).workers = 0
    ∧ (NewAsyncHandler 10 0).cap = 10
    ∧ ((NewAsyncHandler 10 0).Handle 3 true).1 = true
    ∧ ((NewAsyncHandler 10 0).Handle 3 true).2.2.buffer = [3]
    ∧ (∀ h' : AsyncHandler,
        Relation.ReflTransGen WorkerStep ((NewAsyncHandler 10 0).Handle 3 true).2.2 h' →
        h'.processed = [] ∧ h'.buffer = [3])
    ∧ NewCircuitBreaker 0 5
        = { maxFailures := 0, timeout := 5, failures := 0, lastFailure := 0,
            state := .closed } := by
  refine ⟨rfl, rfl, ?_, ?_, ?_, rfl⟩
  · simp [NewAsyncHandler, AsyncHandler.Handle]
  · simp [NewAsyncHandler, AsyncHandler.Handle]
  · intro h' hreach
    have hzero : ((NewAsyncHandler 10 0).Handle 3 true).2.2
        = (⟨10, [3], false, 0, []⟩ : AsyncHandler) := by
      simp [NewAsyncHandler, AsyncHandler.Handle]
    rw [hzero] at hreach
    have : h' = (⟨10, [3], false, 0, []⟩ : AsyncHandler) := by
      induction hreach with
      | refl => rfl
      | tail _ hstep ih =>
        subst ih
        cases hstep with
        | recv e rest hw hbuf => exact absurd hw (by decide)
        | stopRecv hw hstop => exact absurd hw (by decide)
    rw [this]
    exact ⟨rfl, rfl⟩

/-- Witness for `constructors_accept_misconfiguration`: the reachability
conjunct applied to the empty schedule — the freshly enqueued entry is
unprocessed. -/
theorem constructors_accept_misconfiguration_witness :
    (((NewAsyncHandler 10 0).Handle 3 true).2.2.processed = []
      ∧ ((NewAsyncHandler 10 0).Handle 3 true).2.2.buffer = [3]) :=
  constructors_accept_misconfiguration.2.2.2.2.1
    ((NewAsyncHandler 10 0).Handle 3 true).2.2 Relation.ReflTransGen.refl

/-! Pointwise behaviour of the rename loop. -/

theorem renameIfExists_none (fs : FS) (src dst : ℕ) (hfs : fs src = none) :
    renameIfExists fs src dst = fs := by
  simp [renameIfExists, hfs]

theorem renameIfExists_apply_other (fs : FS) (src dst j : ℕ)
    (hs : j ≠ src) (hd : j ≠ dst) : renameIfExists fs src dst j = fs j := by
  cases hfs : fs src with
  | none => rw [renameIfExists_none fs src dst hfs]
  | some sz => simp [renameIfExists, hfs, hs, hd]

theorem renameIfExists_apply_src (fs : FS) (src dst : ℕ) (h : src ≠ dst) :
    renameIfExists fs src dst src = none := by
  cases hfs : fs src with
  | none => rw [renameIfExists_none fs src dst hfs]; exact hfs
  | some sz => simp [renameIfExists, hfs, h]

theorem rotateShift_apply_zero : ∀ (i : ℕ) (fs : FS), rotateShift fs i 0 = fs 0
  | 0, _ => rfl
  | i + 1, fs => by
    show rotateShift (renameIfExists fs (i + 1) (i + 2)) i 0 = fs 0
    rw [rotateShift_apply_zero i]
    exact renameIfExists_apply_other fs (i + 1) (i + 2) 0 (by omega) (by omega)

theorem rotateShift_apply_gt :
    ∀ (i : ℕ) (fs : FS) (j : ℕ), i + 1 < j → rotateShift fs i j = fs j
  | 0, _, _, _ => rfl
  | i + 1, fs, j, h => by
    show rotateShift (renameIfExists fs (i + 1) (i + 2)) i j = fs j
    rw [rotateShift_apply_gt i _ j (by omega)]
    exact renameIfExists_apply_other fs (i + 1) (i + 2) j (by omega) (by omega)

theorem rotateShift_apply_one :
    ∀ (i : ℕ) (fs : FS), 1 ≤ i → rotateShift fs i 1 = none
  | 0, _, h => absurd h (by omega)
  | 1, fs, _ => by
    show rotateShift (renameIfExists fs 1 2) 0 1 = none
    exact renameIfExists_apply_src fs 1 2 (by omega)
  | i + 2, fs, _ => by
    show rotateShift (renameIfExists fs (i + 2) (i + 3)) (i + 1) 1 = none
    exact rotateShift_apply_one (i + 1) _ (by omega)

theorem rotateShift_apply_top (i : ℕ) (fs : FS) :
    rotateShift fs (i + 1) (i + 2)
      = if fs (i + 1) = none then fs (i + 2) else fs (i + 1) := by
  show rotateShift (renameIfExists fs (i + 1) (i + 2)) i (i + 2) = _
  rw [rotateShift_apply_gt i _ (i + 2) (by omega)]
  cases hfs : fs (i + 1) with
  | none => rw [renameIfExists_none fs _ _ hfs]; simp [hfs]
  | some sz => simp [renameIfExists, hfs]

theorem rotateShift_apply_mid :
    ∀ (i : ℕ) (fs : FS) (m : ℕ), 1 ≤ m → m + 1 ≤ i →
      rotateShift fs i (m + 1) = fs m
  | 0, _, _, _, h2 => absurd h2 (by omega)
  | 1, _, m, h1, h2 => absurd h2 (by omega)
  | i + 2, fs, m, h1, h2 => by
    show rotateShift (renameIfExists fs (i + 2) (i + 3)) (i + 1) (m + 1) = fs m
    by_cases hm : m + 1 ≤ i + 1
    · rw [rotateShift_apply_mid (i + 1) _ m h1 hm]
      exact renameIfExists_apply_other fs (i + 2) (i + 3) m (by omega) (by omega)
    · have hme : m = i + 1 := by omega
      subst hme
      rw [rotateShift_apply_top i _]
      rw [renameIfExists_apply_src fs (i + 2) (i + 3) (by omega),
        renameIfExists_apply_other fs (i + 2) (i + 3) (i + 1) (by omega) (by omega)]
      cases hfs : fs (i + 1) with
      | none => simp
      | some sz => simp

/-- After the rename sequence the base path is always vacant. -/
theorem renamed_base_vacant (fs : FS) (k : ℕ) :
    renameIfExists (rotateShift fs k) 0 1 0 = none := by
  cases hfs : rotateShift fs k 0 with
  | none => rw [renameIfExists_none _ _ _ hfs]; exact hfs
  | some sz => exact renameIfExists_apply_src _ 0 1 (by omega)

/-- A successful `rotate`: the full rename sequence is applied, a fresh
empty base file is opened and the size counter is reset to 0. -/
theorem rotate_ok (st : RotState) (fs : FS) :
    st.rotate fs true
      = (none, { st with currentSize := 0 },
         fun j => if j = 0 then some 0
                  else renameIfExists (rotateShift fs (st.maxFiles - 1)) 0 1 j) := by
  simp only [RotState.rotate, RotState.openFile, if_true,
    renamed_base_vacant fs (st.maxFiles - 1), Option.getD_none]

/-- A failed `rotate` (reopen fails): the error is surfaced, the state —
in particular `currentSize` — is untouched, and the file system already
holds the complete rename sequence. -/
theorem rotate_fail (st : RotState) (fs : FS) :
    st.rotate fs false
      = (some .ioError, st, renameIfExists (rotateShift fs (st.maxFiles - 1)) 0 1) := by
  simp [RotState.rotate, RotState.openFile]

/-- Claim C6: `Handle` rotates exactly when
`currentSize + formatted length + separator > maxSize`: below the
threshold the formatted entry is appended, the counter grows by
`fmtLen + 1` and no rotated file moves; above it, with I/O succeeding,
the handler performs the rename cascade `path.i → path.(i+1)`
(`i = maxFiles-1 … 1`), renames `path → path.1`, opens a fresh base file
with the counter reset, then appends — so the new base holds exactly the
new entry, the old base sits at `path.1`, each retained rotation moved
up one slot, the slot-`maxFiles` rotation is overwritten by its
predecessor (the oldest is discarded), and no file beyond index
`maxFiles` ever appears. -/
theorem rotatingHandler_rotation (st : RotState) (fs : FS) (fmtLen : ℕ) :
    (st.currentSize + (fmtLen + 1) ≤ st.maxSize → ∀ oOk,
      (st.Handle fs fmtLen oOk true).1 = none
      ∧ (st.Handle fs fmtLen oOk true).2.1.currentSize
          = st.currentSize + (fmtLen + 1)
      ∧ (st.Handle fs fmtLen oOk true).2.2 0
          = some ((fs 0).getD 0 + (fmtLen + 1))
      ∧ (∀ j, j ≠ 0 → (st.Handle fs fmtLen oOk true).2.2 j = fs j))
    ∧ (st.maxSize < st.currentSize + (fmtLen + 1) →
      (st.Handle fs fmtLen true true).1 = none
      ∧ (st.Handle fs fmtLen true true).2.1.currentSize = fmtLen + 1
      ∧ (st.Handle fs fmtLen true true).2.2 0 = some (fmtLen + 1)
      ∧ (2 ≤ st.maxFiles → (st.Handle fs fmtLen true true).2.2 1 = fs 0)
      ∧ (∀ m, 1 ≤ m → m + 2 ≤ st.maxFiles →
          (st.Handle fs fmtLen true true).2.2 (m + 1) = fs m)
      ∧ (∀ m, 1 ≤ m → m + 1 = st.maxFiles → (∃ sz, fs m = some sz) →
          (st.Handle fs fmtLen true true).2.2 (m + 1) = fs m)
      ∧ ((∀ j, st.maxFiles < j → fs j = none) → 0 < st.maxFiles →
          ∀ j, st.maxFiles < j → (st.Handle fs fmtLen true true).2.2 j = none)) := by
  constructor
  · intro hle oOk
    have hcond : ¬ st.maxSize < st.currentSize + (fmtLen + 1) := by omega
    refine ⟨?_, ?_, ?_, ?_⟩ <;>
      simp [RotState.Handle, hcond, RotState.append]
    intro j hj
    simp [hj]
  · intro hov
    have hH : st.Handle fs fmtLen true true
        = ({ st with currentSize := 0 } : RotState).append
            (fun j => if j = 0 then some 0
                      else renameIfExists (rotateShift fs (st.maxFiles - 1)) 0 1 j)
            fmtLen true := by
      simp only [RotState.Handle, if_pos hov, rotate_ok]
    have happ : ∀ j, j ≠ 0 →
        (st.Handle fs fmtLen true true).2.2 j
          = renameIfExists (rotateShift fs (st.maxFiles - 1)) 0 1 j := by
      intro j hj
      rw [hH]
      simp [RotState.append, hj]
    refine ⟨?_, ?_, ?_, ?_, ?_, ?_, ?_⟩
    · rw [hH]; simp [RotState.append]
    · rw [hH]; simp [RotState.append]
    · rw [hH]; simp [RotState.append]
    · intro hk
      rw [happ 1 (by omega)]
      have h1 : rotateShift fs (st.maxFiles - 1) 1 = none :=
        rotateShift_apply_one (st.maxFiles - 1) fs (by omega)
      cases hfs : rotateShift fs (st.maxFiles - 1) 0 with
      | none =>
        rw [renameIfExists_none _ _ _ hfs, h1]
        rw [rotateShift_apply_zero] at hfs
        exact hfs.symm
      | some sz =>
        rw [rotateShift_apply_zero] at hfs
        simp [renameIfExists, rotateShift_apply_zero, hfs]
    · intro m hm hmk
      rw [happ (m + 1) (by omega)]
      rw [renameIfExists_apply_other _ 0 1 (m + 1) (by omega) (by omega)]
      exact rotateShift_apply_mid (st.maxFiles - 1) fs m hm (by omega)
    · intro m hm hmk hsome
      rw [happ (m + 1) (by omega)]
      rw [renameIfExists_apply_other _ 0 1 (m + 1) (by omega) (by omega)]
      obtain ⟨i, hi⟩ : ∃ i, m = i + 1 := ⟨m - 1, by omega⟩
      subst hi
      have := rotateShift_apply_top i fs
      rw [show st.maxFiles - 1 = i + 1 by omega, this]
      obtain ⟨sz, hsz⟩ := hsome
      simp [hsz]
    · intro hbound hpos j hj
      rw [happ j (by omega)]
      rw [renameIfExists_apply_other _ 0 1 j (by omega) (by omega)]
      rw [rotateShift_apply_gt (st.maxFiles - 1) fs j (by omega)]
      exact hbound j hj

/-- Witness for `rotatingHandler_rotation`: a handler with max size 10,
max files 3 and 8 bytes written, over a directory holding the base file
(8 bytes) and rotations `.1` and `.2`; a 4-byte entry triggers rotation:
the base becomes 5 bytes (entry + newline) with the counter at 5, the
old base moves to `.1`, `.1` to `.2`, `.2` to `.3`, and nothing sits
beyond `.3`; a 1-byte entry instead stays below the threshold and only
grows the base file. -/
theorem rotatingHandler_rotation_witness :
    (((⟨10, 3, 8⟩ : RotState).Handle
        (fun j => if j ≤ 2 then some (8 + j) else none) 4 true true).2.1.currentSize = 5
      ∧ ((⟨10, 3, 8⟩ : RotState).Handle
        (fun j => if j ≤ 2 then some (8 + j) else none) 4 true true).2.2 0 = some 5
      ∧ ((⟨10, 3, 8⟩ : RotState).Handle
        (fun j => if j ≤ 2 then some (8 + j) else none) 4 true true).2.2 1 = some 8
      ∧ ((⟨10, 3, 8⟩ : RotState).Handle
        (fun j => if j ≤ 2 then some (8 + j) else none) 4 true true).2.2 2 = some 9
      ∧ ((⟨10, 3, 8⟩ : RotState).Handle
        (fun j => if j ≤ 2 then some (8 + j) else none) 4 true true).2.2 3 = some 10
      ∧ ((⟨10, 3, 8⟩ : RotState).Handle
        (fun j => if j ≤ 2 then some (8 + j) else none) 4 true true).2.2 4 = none)
    ∧ (((⟨10, 3, 8⟩ : RotState).Handle
        (fun j => if j ≤ 2 then some (8 + j) else none) 1 true true).1 = none
      ∧ ((⟨10, 3, 8⟩ : RotState).Handle
        (fun j => if j ≤ 2 then some (8 + j) else none) 1 true true).2.1.currentSize = 10) := by
  have hrot := (rotatingHandler_rotation ⟨10, 3, 8⟩
    (fun j => if j ≤ 2 then some (8 + j) else none) 4).2 (by decide)
  have hno := (rotatingHandler_rotation ⟨10, 3, 8⟩
    (fun j => if j ≤ 2 then some (8 + j) else none) 1).1 (by decide) true
  refine ⟨⟨hrot.2.1, hrot.2.2.1, ?_, ?_, ?_, ?_⟩, ⟨hno.1, ?_⟩⟩
  · have := hrot.2.2.2.1 (by decide)
    simpa using this
  · have := hrot.2.2.2.2.1 1 (by decide) (by decide)
    simpa using this
  · have := hrot.2.2.2.2.2.1 2 (by decide) (by decide) ⟨10, by decide⟩
    simpa using this
  · exact hrot.2.2.2.2.2.2
      (fun j hj => by
        have h3 : 3 < j := hj
        rw [if_neg (by omega)])
      (by decide) 4 (by decide)
  · have := hno.2.1
    simpa using this

/-- Claim C7: an I/O failure during `Handle` is propagated to the caller
and leaves the sink's state consistent: a failed append (no rotation
pending) returns the error with the size counter and the directory
untouched; a failed reopen during rotation returns the error with the
counter untouched and the complete rename sequence already applied (the
renames precede the reopen, so no partial rotation is exposed); a failed
append right after a successful rotation returns the error with the
counter holding the post-rotation value 0, not bumped by the failed
write. -/
theorem rotatingHandler_io_failure (st : RotState) (fs : FS) (fmtLen : ℕ) :
    (st.currentSize + (fmtLen + 1) ≤ st.maxSize → ∀ oOk,
      st.Handle fs fmtLen oOk false = (some .ioError, st, fs))
    ∧ (st.maxSize < st.currentSize + (fmtLen + 1) → ∀ w,
      st.Handle fs fmtLen false w
        = (some .ioError, st,
           renameIfExists (rotateShift fs (st.maxFiles - 1)) 0 1))
    ∧ (st.maxSize < st.currentSize + (fmtLen + 1) →
      (st.Handle fs fmtLen true false).1 = some .ioError
      ∧ (st.Handle fs fmtLen true false).2.1.currentSize = 0
      ∧ (∀ j, j ≠ 0 → (st.Handle fs fmtLen true false).2.2 j
          = renameIfExists (rotateShift fs (st.maxFiles - 1)) 0 1 j)) := by
  refine ⟨?_, ?_, ?_⟩
  · intro hle oOk
    have hcond : ¬ st.maxSize < st.currentSize + (fmtLen + 1) := by omega
    simp [RotState.Handle, hcond, RotState.append]
  · intro hov w
    simp only [RotState.Handle, if_pos hov, rotate_fail]
  · intro hov
    have hH : st.Handle fs fmtLen true false
        = ({ st with currentSize := 0 } : RotState).append
            (fun j => if j = 0 then some 0
                      else renameIfExists (rotateShift fs (st.maxFiles - 1)) 0 1 j)
            fmtLen false := by
      simp only [RotState.Handle, if_pos hov, rotate_ok]
    refine ⟨?_, ?_, ?_⟩
    · rw [hH]; simp [RotState.append]
    · rw [hH]; simp [RotState.append]
    · intro j hj
      rw [hH]
      simp [RotState.append, hj]

/-- Witness for `rotatingHandler_io_failure`: max size 10, max files 3,
8 bytes written, base file of 8 bytes.  A failed 1-byte append leaves
everything untouched; a failed reopen during rotation of a 4-byte entry
surfaces the error with the counter still 8 and the base renamed to
`.1`; a failed append after a successful rotation leaves the counter at
0 with the old base at `.1`. -/
theorem rotatingHandler_io_failure_witness :
    ((⟨10, 3, 8⟩ : RotState).Handle
        (fun j => if j = 0 then some 8 else none) 1 true false
      = (some .ioError, ⟨10, 3, 8⟩, fun j => if j = 0 then some 8 else none))
    ∧ ((⟨10, 3, 8⟩ : RotState).Handle
        (fun j => if j = 0 then some 8 else none) 4 false true).2.1.currentSize = 8
    ∧ ((⟨10, 3, 8⟩ : RotState).Handle
        (fun j => if j = 0 then some 8 else none) 4 true false).2.1.currentSize = 0
    ∧ ((⟨10, 3, 8⟩ : RotState).Handle
        (fun j => if j = 0 then some 8 else none) 4 true false).2.2 1 = some 8 := by
  have hfs : ∀ j, j ≠ 0 → (fun j => if j = 0 then some 8 else none : FS) j = none := by
    intro j hj
    simp [hj]
  have ha := (rotatingHandler_io_failure ⟨10, 3, 8⟩
    (fun j => if j = 0 then some 8 else none) 1).1 (by decide) true
  have hb := (rotatingHandler_io_failure ⟨10, 3, 8⟩
    (fun j => if j = 0 then some 8 else none) 4).2.1 (by decide) true
  have hc := (rotatingHandler_io_failure ⟨10, 3, 8⟩
    (fun j => if j = 0 then some 8 else none) 4).2.2 (by decide)
  refine ⟨ha, ?_, hc.2.1, ?_⟩
  · rw [hb]
  · rw [hc.2.2 1 (by decide)]
    have h1 : rotateShift (fun j => if j = 0 then some 8 else none : FS) 2 1 = none :=
      rotateShift_apply_one 2 _ (by omega)
    have h0 : rotateShift (fun j => if j = 0 then some 8 else none : FS) 2 0 = some 8 := by
      rw [rotateShift_apply_zero]
      rfl
    simp [renameIfExists, h0]

/-! Association-list lemmas for the monitor's maps. -/

theorem lookupA_eraseA {α : Type} (l : List (String × α)) (k : String) :
    lookupA (eraseA l k) k = none := by
  induction l with
  | nil => rfl
  | cons a l ih =>
    obtain ⟨ka, va⟩ := a
    by_cases h : ka = k
    · simpa [eraseA, h] using ih
    · simp [eraseA, lookupA, h, ih]

theorem eraseA_forall_ne {α : Type} (l : List (String × α)) (k : String) :
    ∀ p ∈ eraseA l k, p.1 ≠ k := by
  induction l with
  | nil => intro p hp; cases hp
  | cons a l ih =>
    obtain ⟨ka, va⟩ := a
    by_cases h : ka = k
    · simpa [eraseA, h] using ih
    · intro p hp
      simp only [eraseA, if_neg h, List.mem_cons] at hp
      rcases hp with rfl | hp
      · exact h
      · exact ih p hp

theorem lookupA_insertA_ne {α : Type} (l : List (String × α)) (k k' : String) (v : α)
    (h : k ≠ k') : lookupA (insertA l k v) k' = lookupA l k' := by
  induction l with
  | nil => simp [insertA, lookupA, h]
  | cons a l ih =>
    obtain ⟨ka, va⟩ := a
    by_cases hk : ka = k
    · subst hk
      simp [insertA, lookupA, h]
    · simp [insertA, lookupA, hk, ih]

/-- One monitoring tick never touches the recorded result of a name that
is absent from the snapshot of the check map. -/
theorem runChecks_results_lookup (hm : HealthMonitor) (t : ℕ) (name : String)
    (h : ∀ p ∈ hm.checks, p.1 ≠ name) :
    lookupA (hm.runChecks t).results name = lookupA hm.results name := by
  have key : ∀ (cs : List (String × HealthCheck))
      (rs : List (String × HealthCheckResult)), (∀ p ∈ cs, p.1 ≠ name) →
      lookupA (cs.foldl (fun r p => insertA r p.1 (p.2 t)) rs) name = lookupA rs name := by
    intro cs
    induction cs with
    | nil => intro rs _; rfl
    | cons c cs ih =>
      intro rs hcs
      rw [List.foldl_cons,
        ih _ (fun p hp => hcs p (List.mem_cons_of_mem c hp)),
        lookupA_insertA_ne rs c.1 name (c.2 t) (hcs c (List.mem_cons_self c cs))]
  exact key hm.checks hm.results h

/-- Claim C8: `GetOverallHealth` is unhealthy when any recorded result
is unhealthy, else degraded when any is degraded, else healthy; it is
unhealthy while no results exist (in particular before any check is
registered), and after registering one always-healthy check a single
monitoring tick makes it healthy. -/
theorem healthMonitor_overall_status :
    (∀ hm : HealthMonitor, hm.results = [] → hm.GetOverallHealth = .unhealthy)
    ∧ (∀ hm : HealthMonitor, (∃ p ∈ hm.results, p.2.status = .unhealthy) →
        hm.GetOverallHealth = .unhealthy)
    ∧ (∀ hm : HealthMonitor, (∀ p ∈ hm.results, p.2.status ≠ .unhealthy) →
        (∃ p ∈ hm.results, p.2.status = .degraded) →
        hm.GetOverallHealth = .degraded)
    ∧ (∀ hm : HealthMonitor, hm.results ≠ [] →
        (∀ p ∈ hm.results, p.2.status ≠ .unhealthy) →
        (∀ p ∈ hm.results, p.2.status ≠ .degraded) →
        hm.GetOverallHealth = .healthy)
    ∧ NewHealthMonitor.GetOverallHealth = .unhealthy
    ∧ ((NewHealthMonitor.AddCheck "sink" fun _ => ⟨.healthy, "ok"⟩).runChecks 0).GetOverallHealth
        = .healthy := by
  refine ⟨?_, ?_, ?_, ?_, rfl, rfl⟩
  · intro hm h
    simp [HealthMonitor.GetOverallHealth, h]
  · rintro hm ⟨p, hp, hst⟩
    have hnil : hm.results ≠ [] := by
      intro h
      rw [h] at hp
      cases hp
    have hne : hm.results.isEmpty = false := by
      cases hres : hm.results with
      | nil => exact absurd hres hnil
      | cons a l => rfl
    have hany : (hm.results.any fun p => p.2.status = .unhealthy) = true := by
      rw [List.any_eq_true]
      exact ⟨p, hp, by simp [hst]⟩
    simp [HealthMonitor.GetOverallHealth, hne, hany]
  · rintro hm hnu ⟨p, hp, hst⟩
    have hnil : hm.results ≠ [] := by
      intro h
      rw [h] at hp
      cases hp
    have hne : hm.results.isEmpty = false := by
      cases hres : hm.results with
      | nil => exact absurd hres hnil
      | cons a l => rfl
    have hanyu : (hm.results.any fun p => p.2.status = .unhealthy) = false := by
      rw [List.any_eq_false]
      intro p hp
      simp [hnu p hp]
    have hanyd : (hm.results.any fun p => p.2.status = .degraded) = true := by
      rw [List.any_eq_true]
      exact ⟨p, hp, by simp [hst]⟩
    simp [HealthMonitor.GetOverallHealth, hne, hanyu, hanyd]
  · intro hm hnil hnu hnd
    have hne : hm.results.isEmpty = false := by
      cases hres : hm.results with
      | nil => exact absurd hres hnil
      | cons a l => rfl
    have hanyu : (hm.results.any fun p => p.2.status = .unhealthy) = false := by
      rw [List.any_eq_false]
      intro p hp
      simp [hnu p hp]
    have hanyd : (hm.results.any fun p => p.2.status = .degraded) = false := by
      rw [List.any_eq_false]
      intro p hp
      simp [hnd p hp]
    simp [HealthMonitor.GetOverallHealth, hne, hanyu, hanyd]

/-- Witness for `healthMonitor_overall_status` on concrete result maps:
one unhealthy result among healthy ones dominates; a degraded result
without unhealthy ones yields degraded; all-healthy yields healthy. -/
theorem healthMonitor_overall_status_witness :
    (⟨[], [("a", ⟨.unhealthy, "x"⟩), ("b", ⟨.healthy, "y"⟩)]⟩ : HealthMonitor).GetOverallHealth
        = .unhealthy
    ∧ (⟨[], [("a", ⟨.degraded, "x"⟩)]⟩ : HealthMonitor).GetOverallHealth = .degraded
    ∧ (⟨[], [("a", ⟨.healthy, "x"⟩)]⟩ : HealthMonitor).GetOverallHealth = .healthy :=
  ⟨healthMonitor_overall_status.2.1 _ ⟨("a", ⟨.unhealthy, "x"⟩), by decide, rfl⟩,
   healthMonitor_overall_status.2.2.1 _ (by decide)
     ⟨("a", ⟨.degraded, "x"⟩), by decide, rfl⟩,
   healthMonitor_overall_status.2.2.2.1 _ (by decide) (by decide) (by decide)⟩

/-- Claim C10: `RemoveCheck(name)` mutates only the check map: the
recorded results are untouched, so `GetHealth` and `GetOverallHealth`
are unchanged, the check itself is gone from the check map, and the
removed check's last recorded result is still reported after any number
of subsequent monitoring ticks. -/
theorem removeCheck_retains_results (hm : HealthMonitor) (name : String) :
    (hm.RemoveCheck name).results = hm.results
    ∧ (hm.RemoveCheck name).GetHealth = hm.GetHealth
    ∧ (hm.RemoveCheck name).GetOverallHealth = hm.GetOverallHealth
    ∧ lookupA (hm.RemoveCheck name).checks name = none
    ∧ ∀ ts : List ℕ,
        lookupA ((hm.RemoveCheck name).runTicks ts).results name
          = lookupA hm.results name := by
  refine ⟨rfl, rfl, rfl, lookupA_eraseA hm.checks name, ?_⟩
  have key : ∀ (ts : List ℕ) (st : HealthMonitor),
      (∀ p ∈ st.checks, p.1 ≠ name) →
      lookupA (st.runTicks ts).results name = lookupA st.results name := by
    intro ts
    induction ts with
    | nil => intro st _; rfl
    | cons t ts ih =>
      intro st hst
      show lookupA ((st.runChecks t).runTicks ts).results name = _
      rw [ih (st.runChecks t) hst, runChecks_results_lookup st t name hst]
  intro ts
  exact key ts (hm.RemoveCheck name) (eraseA_forall_ne hm.checks name)

end GoLogging
